import Mathlib

/-!
Verification of the segment-addressable degrading audio store
(`src/app.py` of `sndrsnk/ephemeral-audio`) against its natural-language
specification.

The Flask handlers `degrade_segment` and `stream_audio` are embedded from
`src/app.py`.  The leaf modules they import (`metadata`, `lock_manager`,
`wav_handler`, `degradation`) are not part of the provided sources; each
such definition carries a doc comment starting `Modelled from the spec:`
and follows the specification's description of that component.
-/

namespace EphemeralAudio

/-- Persisted per-track metadata record (spec §3 `TrackMetadata`), restricted
to the fields the handlers under verification touch. -/
structure TrackMeta where
  totalSegments : Nat
  segmentPlayCounts : List Nat
  totalStreams : Nat
deriving Repr, DecidableEq

/-- A WAV file: opaque header bytes plus the PCM frames (one list entry per
frame; intra-frame channel layout is not needed by any claim). -/
structure WavFile where
  header : List Nat
  sampleRate : Nat
  frames : List Int
deriving Repr, DecidableEq

/-- Whole-system shared state: the metadata store (keyed by filename), the
audio directory (keyed by filename), and the in-memory segment lock table. -/
structure SysState where
  store : List (String × TrackMeta)
  files : List (String × WavFile)
  locks : List (String × Nat)
deriving Repr, DecidableEq

/-- Process-wide configuration (`SEGMENT_DURATION`, `DEGRADATION_RATE`). -/
structure Config where
  segmentDuration : ℚ
  degradationRate : ℚ
deriving Repr, DecidableEq

/-- Nondeterministic environment outcomes of one request: whether the segment
lock was acquired within the timeout, and whether each file operation
succeeds or raises. -/
structure Env where
  lockAcquired : Bool
  readOk : Bool
  writeOk : Bool
deriving Repr, DecidableEq

/-- Lookup in an association list keyed by filename (first match wins). -/
def alookup {β : Type} : List (String × β) → String → Option β
  | [], _ => none
  | p :: rest, k => if p.1 = k then some p.2 else alookup rest k

/-- Update the first entry with the given key, if present. -/
def aupdate {β : Type} : List (String × β) → String → (β → β) → List (String × β)
  | [], _, _ => []
  | p :: rest, k, f =>
      if p.1 = k then (p.1, f p.2) :: rest else p :: aupdate rest k f

theorem alookup_aupdate_self {β : Type} (l : List (String × β)) (k : String)
    (f : β → β) (v : β) (h : alookup l k = some v) :
    alookup (aupdate l k f) k = some (f v) := by
  induction l with
  | nil => simp [alookup] at h
  | cons p rest ih =>
      by_cases hk : p.1 = k
      · simp [alookup, aupdate, hk] at h ⊢
        exact congrArg f h
      · simp [alookup, aupdate, hk] at h ⊢
        exact ih h

theorem alookup_aupdate_ne {β : Type} (l : List (String × β)) (k g : String)
    (f : β → β) (h : g ≠ k) :
    alookup (aupdate l k f) g = alookup l g := by
  induction l with
  | nil => simp [aupdate]
  | cons p rest ih =>
      have hkg : ¬k = g := fun hx => h hx.symm
      by_cases hk : p.1 = k
      · simp [alookup, aupdate, hk, hkg]
      · by_cases hpg : p.1 = g
        · simp [alookup, aupdate, hk, hpg, hkg, h]
        · simp [alookup, aupdate, hk, hpg, ih]

/-! ### SegmentCodec (spec §4.2) -/

/-- Modelled from the spec: `wav_handler` frame math,
`startFrame = floor(segmentIndex * segmentDuration * sampleRate)`. -/
def startFrame (idx : Nat) (segDur : ℚ) (rate : Nat) : Nat :=
  (⌊(idx : ℚ) * segDur * (rate : ℚ)⌋).toNat

/-- Modelled from the spec: the nominal per-segment frame count
`round(segmentDuration * sampleRate)`. -/
def nominalCount (segDur : ℚ) (rate : Nat) : Nat :=
  (round (segDur * (rate : ℚ))).toNat

/-- Modelled from the spec: `frameCount`, the nominal count clipped so that
`startFrame + frameCount` does not exceed the track's total frame count. -/
def frameCount (wf : WavFile) (idx : Nat) (segDur : ℚ) : Nat :=
  min (nominalCount segDur wf.sampleRate)
    (wf.frames.length - startFrame idx segDur wf.sampleRate)

/-- Track duration in seconds, `frame count / sample rate` (spec §3). -/
def trackDuration (wf : WavFile) : ℚ :=
  (wf.frames.length : ℚ) / (wf.sampleRate : ℚ)

/-- `totalSegments = ceil(duration / segmentDuration)` (spec §3). -/
def totalSegmentsOf (wf : WavFile) (segDur : ℚ) : Nat :=
  (⌈trackDuration wf / segDur⌉).toNat

/-- Modelled from the spec: `wav_handler.read_segment` — seek to `startFrame`
and read exactly `frameCount` frames. -/
def read_segment (wf : WavFile) (idx : Nat) (segDur : ℚ) : List Int :=
  (wf.frames.drop (startFrame idx segDur wf.sampleRate)).take (frameCount wf idx segDur)

/-- Modelled from the spec: `wav_handler.write_segment` — seek to `startFrame`
and overwrite exactly `frameCount` frames in place, touching no byte outside
that window. -/
def write_segment (wf : WavFile) (idx : Nat) (segDur : ℚ) (samples : List Int) :
    WavFile :=
  let s := startFrame idx segDur wf.sampleRate
  let c := frameCount wf idx segDur
  { wf with frames := wf.frames.take s ++ samples.take c ++ wf.frames.drop (s + c) }

/-! ### DegradationEngine (spec §4.3) -/

/-- Modelled from the spec: the small tunable constant `k` of the reference
dropout curve. -/
def kDropout : ℚ := 1 / 20

/-- Modelled from the spec: `intensity = min(1.0, playCount * rate * k)`. -/
def intensity (playCount : Nat) (rate : ℚ) : ℚ :=
  min 1 ((playCount : ℚ) * rate * kDropout)

/-- Number of samples the dropout zeroes: the fraction `intensity` of the
buffer, clipped to the buffer length. -/
def dropLen (samples : List Int) (playCount : Nat) (rate : ℚ) : Nat :=
  min (⌊intensity playCount rate * (samples.length : ℚ)⌋).toNat samples.length

/-- Modelled from the spec: `degradation.apply_dropout` — a pure transform
zeroing a contiguous subset of samples proportional to `intensity`. -/
def apply_dropout (samples : List Int) (playCount : Nat) (rate : ℚ) : List Int :=
  let z := dropLen samples playCount rate
  List.replicate z 0 ++ samples.drop z

/-! ### MetadataStore (spec §4.4) -/

/-- Modelled from the spec: `MetadataManager.get_track_metadata` — serve the
persisted record for a filename, or `NotFound`. -/
def get_track_metadata (store : List (String × TrackMeta)) (filename : String) :
    Option TrackMeta :=
  alookup store filename

/-- Modelled from the spec: `MetadataManager.increment_segment_play_count` —
add one to exactly the addressed segment's persisted play count. -/
def increment_segment_play_count (store : List (String × TrackMeta))
    (filename : String) (idx : Nat) : List (String × TrackMeta) :=
  aupdate store filename (fun m =>
    { m with segmentPlayCounts :=
        m.segmentPlayCounts.set idx (m.segmentPlayCounts.getD idx 0 + 1) })

/-- Modelled from the spec: `MetadataManager.increment_total_streams` — add
one to the track's stream counter. -/
def increment_total_streams (store : List (String × TrackMeta))
    (filename : String) : List (String × TrackMeta) :=
  aupdate store filename (fun m => { m with totalStreams := m.totalStreams + 1 })

/-! ### SegmentLockManager (spec §4.1) -/

/-- Modelled from the spec: lock acquisition records the `(filename, index)`
key in the in-memory lock table. -/
def acquireSegmentLock (st : SysState) (filename : String) (idx : Nat) : SysState :=
  { st with locks := (filename, idx) :: st.locks }

/-- Modelled from the spec: releasing drops the `(filename, index)` key from
the lock table; the `with` statement in `app.py` runs this on every exit
path of the critical section, exceptions included. -/
def releaseSegmentLock (st : SysState) (filename : String) (idx : Nat) : SysState :=
  { st with locks := st.locks.erase (filename, idx) }

/-! ### Observable events of one request

One event per interaction with shared state (metadata store, audio file,
lock table), in program order; `compute` additionally records the play
count fed to the degradation engine. -/

/-- Shared-state interaction events emitted by `degrade_segment`, in the
order the corresponding lines of `app.py` execute. -/
inductive Ev where
  | storeGet (filename : String)
  | lockAcquire (filename : String) (idx : Nat)
  | fileRead (filename : String) (idx : Nat)
  | compute (playCount : Nat)
  | fileWrite (filename : String) (idx : Nat)
  | storeIncrement (filename : String) (idx : Nat)
  | lockRelease (filename : String) (idx : Nat)
deriving Repr, DecidableEq

/-- Responses of `POST /degrade/<filename>` (`app.py` lines 426–485). -/
inductive DegradeResp where
  | missingIndex
  | notFound
  | invalidIndex
  | lockTimeout
  | serverError
  | success (segment_index : Int) (play_count : Nat)
deriving Repr, DecidableEq

/-- Embedding of the `degrade_segment` handler (`app.py` lines 411–485):
validate body and track, validate the index, then inside the segment lock
read the snapshot play count, read the segment, apply the dropout, write it
back and increment the persisted play count; any exception maps to a 500
after the `with` block has released the lock.  Returns the response, the
final shared state, and the event trace. -/
def degrade_segment (cfg : Config) (env : Env) (st : SysState)
    (filename : String) (segIdx : Option Int) :
    DegradeResp × SysState × List Ev :=
  match segIdx with
  | none => (.missingIndex, st, [])
  | some idx =>
    match get_track_metadata st.store filename with
    | none => (.notFound, st, [.storeGet filename])
    | some metadata =>
      if idx < 0 ∨ (metadata.totalSegments : Int) ≤ idx then
        (.invalidIndex, st, [.storeGet filename])
      else
        let i := idx.toNat
        if env.lockAcquired then
          let locked := acquireSegmentLock st filename i
          match metadata.segmentPlayCounts[i]? with
          | none =>
            (.serverError, releaseSegmentLock locked filename i,
              [.storeGet filename, .lockAcquire filename i, .lockRelease filename i])
          | some play_count =>
            match (if env.readOk then alookup st.files filename else none) with
            | none =>
              (.serverError, releaseSegmentLock locked filename i,
                [.storeGet filename, .lockAcquire filename i, .lockRelease filename i])
            | some wf =>
              let audio_data := read_segment wf i cfg.segmentDuration
              let degraded := apply_dropout audio_data play_count cfg.degradationRate
              if env.writeOk then
                let written := { locked with
                  files := aupdate locked.files filename
                    (fun f => write_segment f i cfg.segmentDuration degraded) }
                let committed := { written with
                  store := increment_segment_play_count written.store filename i }
                (.success idx (play_count + 1), releaseSegmentLock committed filename i,
                  [.storeGet filename, .lockAcquire filename i, .fileRead filename i,
                   .compute play_count, .fileWrite filename i,
                   .storeIncrement filename i, .lockRelease filename i])
              else
                (.serverError, releaseSegmentLock locked filename i,
                  [.storeGet filename, .lockAcquire filename i, .fileRead filename i,
                   .compute play_count, .lockRelease filename i])
        else
          (.lockTimeout, st, [.storeGet filename])

/-- Responses of `GET /stream/<filename>` (`app.py` lines 327–405). -/
inductive StreamResp where
  | notFound
  | rangeContent (start endByte : Nat)
  | fullContent (size : Nat)
deriving Repr, DecidableEq

/-- File size in abstract byte units, header plus frame data. -/
def fileSize (wf : WavFile) : Nat :=
  wf.header.length + wf.frames.length

/-- Embedding of the `stream_audio` handler (`app.py` lines 327–405): check
the audio file exists (404 otherwise), increment `total_streams` only when
no `Range` header is present, then serve a 206 for a parsed byte range or a
200 for the full file.  A range header is a parsed optional pair of start
and end bytes. -/
def stream_audio (st : SysState) (filename : String)
    (rangeHeader : Option (Option Nat × Option Nat)) : StreamResp × SysState :=
  match alookup st.files filename with
  | none => (.notFound, st)
  | some wf =>
    let st1 := if rangeHeader.isSome then st
      else { st with store := increment_total_streams st.store filename }
    let file_size := fileSize wf
    match rangeHeader with
    | some (s, e) =>
      let start := s.getD 0
      let endByte := e.getD (file_size - 1)
      (.rangeContent start endByte, st1)
    | none => (.fullContent file_size, st1)

/-! ### Frame-window facts (SegmentCodec, spec §4.2) -/

theorem startFrame_lt_length (wf : WavFile) (segDur : ℚ) (idx : Nat)
    (hsd : 0 < segDur) (hr : 0 < wf.sampleRate)
    (hidx : idx < totalSegmentsOf wf segDur) :
    startFrame idx segDur wf.sampleRate < wf.frames.length := by
  have hrq : (0 : ℚ) < (wf.sampleRate : ℚ) := by exact_mod_cast hr
  have h0 : ((idx : Nat) : ℤ) < ⌈trackDuration wf / segDur⌉ := by
    unfold totalSegmentsOf at hidx
    exact Int.lt_toNat.mp hidx
  have h1 : ((idx : Nat) : ℚ) < trackDuration wf / segDur := by
    have := Int.lt_ceil.mp h0
    exact_mod_cast this
  have h2 : ((idx : Nat) : ℚ) * segDur < trackDuration wf :=
    (lt_div_iff₀ hsd).mp h1
  have h3 : ((idx : Nat) : ℚ) * segDur * (wf.sampleRate : ℚ) <
      (wf.frames.length : ℚ) := by
    unfold trackDuration at h2
    exact (lt_div_iff₀ hrq).mp h2
  have h4 : ⌊((idx : Nat) : ℚ) * segDur * (wf.sampleRate : ℚ)⌋ <
      (wf.frames.length : ℤ) := Int.floor_lt.mpr (by exact_mod_cast h3)
  have h5 : (0 : ℚ) ≤ ((idx : Nat) : ℚ) * segDur * (wf.sampleRate : ℚ) := by positivity
  have h6 : (0 : ℤ) ≤ ⌊((idx : Nat) : ℚ) * segDur * (wf.sampleRate : ℚ)⌋ :=
    Int.floor_nonneg.mpr h5
  unfold startFrame
  omega

theorem startFrame_add_frameCount_le (wf : WavFile) (segDur : ℚ) (idx : Nat)
    (hsd : 0 < segDur) (hr : 0 < wf.sampleRate)
    (hidx : idx < totalSegmentsOf wf segDur) :
    startFrame idx segDur wf.sampleRate + frameCount wf idx segDur ≤
      wf.frames.length := by
  have hs := startFrame_lt_length wf segDur idx hsd hr hidx
  have hc : frameCount wf idx segDur ≤
      wf.frames.length - startFrame idx segDur wf.sampleRate :=
    min_le_right _ _
  omega

/-- C6: for every track and every valid segment index, `write_segment`
overwrites exactly the computed `frameCount` frames starting at
`startFrame` and nothing else: the header is untouched, the file neither
grows nor shrinks, the written window holds exactly the given samples, and
every frame before the window and every frame at or after its end is
identical before and after the write. -/
theorem write_segment_exact_window (wf : WavFile) (segDur : ℚ) (idx : Nat)
    (samples : List Int) (hsd : 0 < segDur) (hr : 0 < wf.sampleRate)
    (hidx : idx < totalSegmentsOf wf segDur)
    (hlen : samples.length = frameCount wf idx segDur) :
    (write_segment wf idx segDur samples).header = wf.header ∧
    (write_segment wf idx segDur samples).sampleRate = wf.sampleRate ∧
    (write_segment wf idx segDur samples).frames.length = wf.frames.length ∧
    ((write_segment wf idx segDur samples).frames.drop
        (startFrame idx segDur wf.sampleRate)).take (frameCount wf idx segDur) =
      samples ∧
    (∀ j, j < startFrame idx segDur wf.sampleRate →
      (write_segment wf idx segDur samples).frames[j]? = wf.frames[j]?) ∧
    (∀ j, startFrame idx segDur wf.sampleRate + frameCount wf idx segDur ≤ j →
      (write_segment wf idx segDur samples).frames[j]? = wf.frames[j]?) := by
  have hsc := startFrame_add_frameCount_le wf segDur idx hsd hr hidx
  set s := startFrame idx segDur wf.sampleRate with hs
  set c := frameCount wf idx segDur with hc
  have htake : samples.take c = samples := List.take_of_length_le (le_of_eq hlen)
  have hlenA : (wf.frames.take s).length = s := by
    rw [List.length_take]; omega
  have hlenB : (samples.take c).length = c := by rw [htake, hlen]
  have hframes : (write_segment wf idx segDur samples).frames =
      wf.frames.take s ++ samples.take c ++ wf.frames.drop (s + c) := rfl
  refine ⟨rfl, rfl, ?_, ?_, ?_, ?_⟩
  · rw [hframes]
    simp only [List.length_append, List.length_take, List.length_drop, hlen]
    omega
  · rw [hframes, List.append_assoc]
    have hdrop : (wf.frames.take s ++ (samples.take c ++ wf.frames.drop (s + c))).drop s =
        samples.take c ++ wf.frames.drop (s + c) := by
      have := List.drop_left (wf.frames.take s) (samples.take c ++ wf.frames.drop (s + c))
      rwa [hlenA] at this
    rw [hdrop]
    have := List.take_left (samples.take c) (wf.frames.drop (s + c))
    rw [hlenB] at this
    rw [this, htake]
  · intro j hj
    rw [hframes, List.append_assoc, List.getElem?_append, hlenA]
    simp only [hj, if_true]
    rw [List.getElem?_take]
    simp [hj]
  · intro j hj
    rw [hframes]
    have hlenAB : (wf.frames.take s ++ samples.take c).length = s + c := by
      rw [List.length_append, hlenA, hlenB]
    rw [List.getElem?_append_right (by rw [hlenAB]; omega)]
    rw [hlenAB, List.getElem?_drop]
    congr 1
    omega

/-! ### DegradationEngine facts (spec §4.3) -/

theorem dropLen_mono (samples : List Int) (rate : ℚ) (p1 p2 : Nat)
    (hr : 0 ≤ rate) (hp : p1 ≤ p2) :
    dropLen samples p1 rate ≤ dropLen samples p2 rate := by
  unfold dropLen
  refine min_le_min ?_ le_rfl
  refine Int.toNat_le_toNat (Int.floor_le_floor ?_)
  refine mul_le_mul_of_nonneg_right ?_ (by positivity)
  unfold intensity
  refine min_le_min le_rfl ?_
  have hk : (0 : ℚ) ≤ kDropout := by norm_num [kDropout]
  refine mul_le_mul_of_nonneg_right ?_ hk
  refine mul_le_mul_of_nonneg_right ?_ hr
  exact_mod_cast hp

theorem dropLen_le_length (samples : List Int) (playCount : Nat) (rate : ℚ) :
    dropLen samples playCount rate ≤ samples.length :=
  min_le_right _ _

theorem count_zero_apply_dropout (samples : List Int) (playCount : Nat) (rate : ℚ) :
    (apply_dropout samples playCount rate).count 0 =
      dropLen samples playCount rate +
        (samples.drop (dropLen samples playCount rate)).count 0 := by
  unfold apply_dropout
  simp [List.count_append]

/-- C7: for a fixed degradation rate and a fixed sample buffer, the measured
degradation intensity of the dropout output — the number of zeroed samples —
is non-decreasing in the play count, so successive degrade calls never
produce a less-degraded buffer. -/
theorem apply_dropout_mono (samples : List Int) (rate : ℚ) (p1 p2 : Nat)
    (hr : 0 ≤ rate) (hp : p1 ≤ p2) :
    (apply_dropout samples p1 rate).count 0 ≤
      (apply_dropout samples p2 rate).count 0 := by
  have hz := dropLen_mono samples rate p1 p2 hr hp
  set z1 := dropLen samples p1 rate with hz1
  set z2 := dropLen samples p2 rate with hz2
  have hsplit : samples.drop z1 =
      (samples.drop z1).take (z2 - z1) ++ samples.drop z2 := by
    have hdd : (samples.drop z1).drop (z2 - z1) = samples.drop z2 := by
      rw [List.drop_drop]
      congr 1
      omega
    conv_lhs => rw [← List.take_append_drop (z2 - z1) (samples.drop z1)]
    rw [hdd]
  have hdec : (samples.drop z1).count 0 ≤ (z2 - z1) + (samples.drop z2).count 0 := by
    conv_lhs => rw [hsplit]
    rw [List.count_append]
    have h1 : (List.count 0 ((samples.drop z1).take (z2 - z1))) ≤ z2 - z1 := by
      calc List.count 0 ((samples.drop z1).take (z2 - z1)) ≤
            ((samples.drop z1).take (z2 - z1)).length := List.count_le_length _ _
        _ ≤ z2 - z1 := by rw [List.length_take]; omega
    omega
  rw [count_zero_apply_dropout, count_zero_apply_dropout, ← hz1, ← hz2]
  omega

/-- C8: the degrade transform is deterministic — two invocations with equal
`(samples, playCount, rate)` inputs produce equal output buffers; nothing
besides the documented inputs influences the result. -/
theorem apply_dropout_deterministic (s1 s2 : List Int) (p1 p2 : Nat) (r1 r2 : ℚ)
    (hs : s1 = s2) (hp : p1 = p2) (hr : r1 = r2) :
    apply_dropout s1 p1 r1 = apply_dropout s2 p2 r2 := by
  subst hs
  subst hp
  subst hr
  rfl

/-! ### Concrete fixtures used by witnesses -/

/-- Default configuration: 0.5 s segments, degradation rate 1. -/
def cfg0 : Config := { segmentDuration := 1 / 2, degradationRate := 1 }

/-- Environment of an untroubled request: lock acquired, all I/O succeeds. -/
def env0 : Env := { lockAcquired := true, readOk := true, writeOk := true }

/-- Environment whose write-back raises after a successful read. -/
def envWriteFail : Env := { lockAcquired := true, readOk := true, writeOk := false }

/-- Environment whose lock acquisition times out. -/
def envNoLock : Env := { lockAcquired := false, readOk := true, writeOk := true }

/-- A fresh two-segment track record. -/
def meta0 : TrackMeta :=
  { totalSegments := 2, segmentPlayCounts := [0, 0], totalStreams := 0 }

/-- A one-second, 4 Hz mono file: two 0.5 s segments of two frames each. -/
def wf0 : WavFile := { header := [82, 73], sampleRate := 4, frames := [1, 2, 3, 4] }

/-- System state holding the single track `a.wav`. -/
def st0 : SysState :=
  { store := [("a.wav", meta0)], files := [("a.wav", wf0)], locks := [] }

/-! ### The degrade success path -/

theorem degrade_success_run (cfg : Config) (env : Env) (st : SysState)
    (fn : String) (i : Nat) (meta : TrackMeta) (pc : Nat) (wf : WavFile)
    (hmeta : alookup st.store fn = some meta)
    (hi : i < meta.totalSegments)
    (hpc : meta.segmentPlayCounts[i]? = some pc)
    (hwf : alookup st.files fn = some wf)
    (hl : env.lockAcquired = true) (hre : env.readOk = true)
    (hw : env.writeOk = true) :
    degrade_segment cfg env st fn (some (i : Int)) =
      (.success (i : Int) (pc + 1),
       { store := increment_segment_play_count st.store fn i,
         files := aupdate st.files fn (fun f => write_segment f i cfg.segmentDuration
           (apply_dropout (read_segment wf i cfg.segmentDuration) pc
             cfg.degradationRate)),
         locks := st.locks },
       [.storeGet fn, .lockAcquire fn i, .fileRead fn i, .compute pc,
        .fileWrite fn i, .storeIncrement fn i, .lockRelease fn i]) := by
  have hvalid : ¬(((i : Nat) : Int) < 0 ∨ ((meta.totalSegments : Nat) : Int) ≤ ((i : Nat) : Int)) := by
    omega
  simp only [degrade_segment, get_track_metadata, hmeta, hvalid, if_false,
    Int.toNat_natCast, hl, if_true, hre, hwf, hpc, hw,
    acquireSegmentLock, releaseSegmentLock, List.erase_cons_head]

/-- C1: a single successful `POST /degrade/<filename>` on a known track with
a valid segment index returns success carrying that index and a play count
equal to the pre-increment play count plus one, increments exactly that
segment's persisted play count by exactly one, leaves every other segment's
play count unchanged, and leaves every other track's record unchanged. -/
theorem degrade_increments_exactly_one (cfg : Config) (env : Env) (st : SysState)
    (fn : String) (i : Nat) (meta : TrackMeta) (pc : Nat) (wf : WavFile)
    (hmeta : alookup st.store fn = some meta)
    (hi : i < meta.totalSegments)
    (hpc : meta.segmentPlayCounts[i]? = some pc)
    (hwf : alookup st.files fn = some wf)
    (hl : env.lockAcquired = true) (hre : env.readOk = true)
    (hw : env.writeOk = true) :
    (degrade_segment cfg env st fn (some (i : Int))).1 =
      .success (i : Int) (pc + 1) ∧
    alookup (degrade_segment cfg env st fn (some (i : Int))).2.1.store fn =
      some { meta with segmentPlayCounts := meta.segmentPlayCounts.set i (pc + 1) } ∧
    (meta.segmentPlayCounts.set i (pc + 1))[i]? = some (pc + 1) ∧
    (∀ j, j ≠ i → (meta.segmentPlayCounts.set i (pc + 1))[j]? =
      meta.segmentPlayCounts[j]?) ∧
    (∀ g, g ≠ fn → alookup (degrade_segment cfg env st fn (some (i : Int))).2.1.store g =
      alookup st.store g) := by
  have hrun := degrade_success_run cfg env st fn i meta pc wf hmeta hi hpc hwf hl hre hw
  have hilen : i < meta.segmentPlayCounts.length := by
    rcases List.getElem?_eq_some.mp hpc with ⟨h, _⟩
    exact h
  have hgetD : meta.segmentPlayCounts.getD i 0 = pc := by
    rw [List.getD_eq_getElem?_getD, hpc]
    rfl
  refine ⟨?_, ?_, ?_, ?_, ?_⟩
  · rw [hrun]
  · rw [hrun]
    show alookup (increment_segment_play_count st.store fn i) fn = _
    unfold increment_segment_play_count
    rw [alookup_aupdate_self st.store fn _ meta hmeta, hgetD]
  · exact List.getElem?_set_eq_of_lt (pc + 1) hilen
  · intro j hj
    exact List.getElem?_set_ne (fun h => hj h.symm)
  · intro g hg
    rw [hrun]
    show alookup (increment_segment_play_count st.store fn i) g = _
    unfold increment_segment_play_count
    exact alookup_aupdate_ne st.store fn g _ hg

theorem degrade_increments_exactly_one_check :
    (degrade_segment cfg0 env0 st0 "a.wav" (some ((0 : Nat) : Int))).1 =
      .success ((0 : Nat) : Int) (0 + 1) ∧
    alookup (degrade_segment cfg0 env0 st0 "a.wav" (some ((0 : Nat) : Int))).2.1.store "a.wav" =
      some { meta0 with segmentPlayCounts := meta0.segmentPlayCounts.set 0 (0 + 1) } :=
  have h := degrade_increments_exactly_one cfg0 env0 st0 "a.wav" 0 meta0 0 wf0
    rfl (by decide) rfl rfl rfl rfl rfl
  ⟨h.1, h.2.1⟩

/-- Whether, in a request trace, the metadata-store read that supplies the
play count happens after the segment lock has been acquired (the ordering
spec §4.5 step 3 demands). -/
def play_count_read_inside_lock (t : List Ev) (fn : String) (i : Nat) : Bool :=
  match t.findIdx? (fun e => decide (e = Ev.lockAcquire fn i)),
      t.findIdx? (fun e => decide (e = Ev.storeGet fn)) with
  | some a, some g => a < g
  | _, _ => false

/-- C2: in a successful degrade run the metadata record — the sole store
read, supplying the play count used by the degradation — is fetched
strictly before the segment lock is acquired, contradicting the claim that
the play count is read within the held lock: the full trace of the run is
store-read, acquire, file-read, compute(with the pre-lock count), file-write,
increment, release. -/
theorem degrade_play_count_read_before_lock :
    (degrade_segment cfg0 env0 st0 "a.wav" (some 0)).1 =
      .success 0 (0 + 1) ∧
    (degrade_segment cfg0 env0 st0 "a.wav" (some 0)).2.2 =
      [.storeGet "a.wav", .lockAcquire "a.wav" 0, .fileRead "a.wav" 0,
       .compute 0, .fileWrite "a.wav" 0, .storeIncrement "a.wav" 0,
       .lockRelease "a.wav" 0] ∧
    play_count_read_inside_lock
      (degrade_segment cfg0 env0 st0 "a.wav" (some 0)).2.2 "a.wav" 0 = false := by
  refine ⟨?_, ?_, ?_⟩ <;> decide

/-- C3: the degrade endpoint classifies failures into distinct outcomes —
`404` for every unknown track, `400` for every out-of-range index on a known
track, `503` when the lock is not acquired within the timeout — and a
success response (carrying the echoed segment index and the play count)
arises only when the track exists, the index is in range and the lock was
acquired. -/
theorem degrade_failure_classification (cfg : Config) (env : Env)
    (st : SysState) (fn : String) :
    (∀ idx : Int, alookup st.store fn = none →
      (degrade_segment cfg env st fn (some idx)).1 = .notFound) ∧
    (∀ idx : Int, ∀ meta, alookup st.store fn = some meta →
      (idx < 0 ∨ (meta.totalSegments : Int) ≤ idx) →
      (degrade_segment cfg env st fn (some idx)).1 = .invalidIndex) ∧
    (∀ idx : Int, ∀ meta, alookup st.store fn = some meta →
      ¬(idx < 0 ∨ (meta.totalSegments : Int) ≤ idx) →
      env.lockAcquired = false →
      (degrade_segment cfg env st fn (some idx)).1 = .lockTimeout) ∧
    (∀ idx s p, (degrade_segment cfg env st fn (some idx)).1 = .success s p →
      s = idx ∧ ∃ meta, alookup st.store fn = some meta ∧
        ¬(idx < 0 ∨ (meta.totalSegments : Int) ≤ idx) ∧
        env.lockAcquired = true) ∧
    ([DegradeResp.notFound, DegradeResp.invalidIndex, DegradeResp.lockTimeout,
        DegradeResp.serverError].Pairwise (· ≠ ·) ∧
      ∀ s p, DegradeResp.success s p ∉
        [DegradeResp.notFound, DegradeResp.invalidIndex, DegradeResp.lockTimeout,
         DegradeResp.serverError]) := by
  refine ⟨?_, ?_, ?_, ?_, by decide, by intro s p; simp⟩
  · intro idx h
    simp [degrade_segment, get_track_metadata, h]
  · intro idx meta h hc
    simp [degrade_segment, get_track_metadata, h, hc]
  · intro idx meta h hc hl
    simp [degrade_segment, get_track_metadata, h, hc, hl]
  · intro idx s p h
    cases hm : alookup st.store fn with
    | none => simp [degrade_segment, get_track_metadata, hm] at h
    | some meta =>
      by_cases hc : (idx < 0 ∨ (meta.totalSegments : Int) ≤ idx)
      · simp [degrade_segment, get_track_metadata, hm, hc] at h
      · cases hl : env.lockAcquired with
        | false => simp [degrade_segment, get_track_metadata, hm, hc, hl] at h
        | true =>
          cases hpc : meta.segmentPlayCounts[idx.toNat]? with
          | none => simp [degrade_segment, get_track_metadata, hm, hc, hl, hpc] at h
          | some pc =>
            cases hrd : (if env.readOk then alookup st.files fn else none) with
            | none =>
              simp [degrade_segment, get_track_metadata, hm, hc, hl, hpc, hrd] at h
            | some wf =>
              cases hw : env.writeOk with
              | false =>
                simp [degrade_segment, get_track_metadata, hm, hc, hl, hpc, hrd, hw] at h
              | true =>
                simp [degrade_segment, get_track_metadata, hm, hc, hl, hpc, hrd, hw] at h
                exact ⟨h.1.symm, meta, rfl, hc, rfl⟩

theorem degrade_failure_classification_check :
    (degrade_segment cfg0 env0 st0 "missing.wav" (some 0)).1 =
      DegradeResp.notFound ∧
    (degrade_segment cfg0 env0 st0 "a.wav" (some 20)).1 =
      DegradeResp.invalidIndex ∧
    (degrade_segment cfg0 envNoLock st0 "a.wav" (some 0)).1 =
      DegradeResp.lockTimeout :=
  ⟨(degrade_failure_classification cfg0 env0 st0 "missing.wav").1 0 rfl,
   (degrade_failure_classification cfg0 env0 st0 "a.wav").2.1 20 meta0 rfl
     (by decide),
   (degrade_failure_classification cfg0 envNoLock st0 "a.wav").2.2.1 0 meta0 rfl
     (by decide) rfl⟩

/-- C4: on every exit path of a degrade request — success, any validation or
I/O failure inside the critical section, and the lock-timeout path — the
lock table is left exactly as it was found, and a lock-acquire event appears
in the trace exactly when its matching release does, so no segment is ever
left locked by a failed degrade. -/
theorem degrade_releases_lock (cfg : Config) (env : Env) (st : SysState)
    (fn : String) (b : Option Int) :
    (degrade_segment cfg env st fn b).2.1.locks = st.locks ∧
    (∀ g j, Ev.lockAcquire g j ∈ (degrade_segment cfg env st fn b).2.2 ↔
      Ev.lockRelease g j ∈ (degrade_segment cfg env st fn b).2.2) := by
  unfold degrade_segment
  cases b with
  | none => simp
  | some idx =>
    cases hm : get_track_metadata st.store fn with
    | none => simp
    | some meta =>
      by_cases hc : (idx < 0 ∨ (meta.totalSegments : Int) ≤ idx)
      · simp [hc]
      · cases hl : env.lockAcquired with
        | false => simp [hc, hl]
        | true =>
          cases hpc : meta.segmentPlayCounts[idx.toNat]? <;>
            cases hrd : (if env.readOk then alookup st.files fn else none) <;>
              cases hw : env.writeOk <;>
                simp [hc, hl, hpc, hrd, hw, acquireSegmentLock,
                  releaseSegmentLock, List.erase_cons_head]

/-- C5: when the write-back raises after a successful read, the request gets
a distinct error rather than a success response, the metadata store — and in
particular the segment's persisted play count — is left exactly as before,
and no store-increment event appears in the trace, because the increment
runs only after the write-back completes. -/
theorem degrade_write_failure_no_increment (cfg : Config) (env : Env)
    (st : SysState) (fn : String) (i : Nat) (meta : TrackMeta) (pc : Nat)
    (wf : WavFile)
    (hmeta : alookup st.store fn = some meta)
    (hi : i < meta.totalSegments)
    (hpc : meta.segmentPlayCounts[i]? = some pc)
    (hwf : alookup st.files fn = some wf)
    (hl : env.lockAcquired = true) (hre : env.readOk = true)
    (hw : env.writeOk = false) :
    (degrade_segment cfg env st fn (some (i : Int))).1 = .serverError ∧
    (∀ s p, (degrade_segment cfg env st fn (some (i : Int))).1 ≠ .success s p) ∧
    (degrade_segment cfg env st fn (some (i : Int))).2.1.store = st.store ∧
    Ev.storeIncrement fn i ∉ (degrade_segment cfg env st fn (some (i : Int))).2.2 := by
  have hvalid : ¬(((i : Nat) : Int) < 0 ∨
      ((meta.totalSegments : Nat) : Int) ≤ ((i : Nat) : Int)) := by omega
  have hrun : degrade_segment cfg env st fn (some (i : Int)) =
      (.serverError,
       { store := st.store, files := st.files, locks := st.locks },
       [.storeGet fn, .lockAcquire fn i, .fileRead fn i, .compute pc,
        .lockRelease fn i]) := by
    simp only [degrade_segment, get_track_metadata, hmeta, hvalid, if_false,
      Int.toNat_natCast, hl, if_true, hre, hwf, hpc, hw, Bool.false_eq_true,
      acquireSegmentLock, releaseSegmentLock, List.erase_cons_head]
  rw [hrun]
  refine ⟨rfl, ?_, rfl, ?_⟩
  · intro s p h
    simp at h
  · simp

theorem degrade_write_failure_no_increment_check :
    (degrade_segment cfg0 envWriteFail st0 "a.wav" (some ((0 : Nat) : Int))).1 =
      DegradeResp.serverError ∧
    (degrade_segment cfg0 envWriteFail st0 "a.wav" (some ((0 : Nat) : Int))).2.1.store =
      st0.store :=
  have h := degrade_write_failure_no_increment cfg0 envWriteFail st0 "a.wav" 0
    meta0 0 wf0 rfl (by decide) rfl rfl rfl rfl rfl
  ⟨h.1, h.2.2.1⟩

theorem write_segment_exact_window_check :
    (0 : ℚ) < 1 / 2 ∧ 0 < wf0.sampleRate ∧ 1 < totalSegmentsOf wf0 (1 / 2) ∧
    ([9, 8] : List Int).length = frameCount wf0 1 (1 / 2) ∧
    (write_segment wf0 1 (1 / 2) [9, 8]).frames.length = wf0.frames.length := by
  have hsd : (0 : ℚ) < 1 / 2 := by norm_num
  have hr : 0 < wf0.sampleRate := by decide
  have hts : totalSegmentsOf wf0 (1 / 2) = 2 := by
    norm_num [totalSegmentsOf, trackDuration, wf0]
    rfl
  have hfc : frameCount wf0 1 (1 / 2) = 2 := by
    norm_num [frameCount, nominalCount, startFrame, wf0, round_eq]
    rfl
  have hidx : 1 < totalSegmentsOf wf0 (1 / 2) := by rw [hts]; norm_num
  have hlen : ([9, 8] : List Int).length = frameCount wf0 1 (1 / 2) := by
    rw [hfc]
    rfl
  exact ⟨hsd, hr, hidx, hlen,
    (write_segment_exact_window wf0 (1 / 2) 1 [9, 8] hsd hr hidx hlen).2.2.1⟩

theorem apply_dropout_mono_check :
    (0 : ℚ) ≤ 1 ∧ (0 : Nat) ≤ 40 ∧
    (apply_dropout [5, 6, 7, 8] 0 1).count 0 ≤
      (apply_dropout [5, 6, 7, 8] 40 1).count 0 :=
  ⟨by norm_num, by decide,
   apply_dropout_mono [5, 6, 7, 8] 1 0 40 (by norm_num) (by decide)⟩

theorem apply_dropout_deterministic_check :
    ([5, 6] : List Int) = [5, 6] ∧ (3 : Nat) = 3 ∧ (1 : ℚ) = 1 ∧
    apply_dropout [5, 6] 3 1 = apply_dropout [5, 6] 3 1 :=
  ⟨rfl, rfl, rfl, apply_dropout_deterministic [5, 6] [5, 6] 3 3 1 1 rfl rfl rfl⟩

/-- C9: `GET /stream/<filename>` for an existing track without a `Range`
header increments exactly that track's `totalStreams` counter by exactly
one, leaving its other fields, every other track's record, and the rest of
the state unchanged; every request carrying a `Range` header leaves the
whole state, `totalStreams` included, unchanged. -/
theorem stream_total_streams_increment (st : SysState) (fn : String)
    (meta : TrackMeta) (wf : WavFile)
    (hwf : alookup st.files fn = some wf)
    (hmeta : alookup st.store fn = some meta) :
    alookup (stream_audio st fn none).2.store fn =
      some { meta with totalStreams := meta.totalStreams + 1 } ∧
    (∀ g, g ≠ fn → alookup (stream_audio st fn none).2.store g =
      alookup st.store g) ∧
    (stream_audio st fn none).2.files = st.files ∧
    (stream_audio st fn none).2.locks = st.locks ∧
    (∀ r, (stream_audio st fn (some r)).2 = st) := by
  have hrun : stream_audio st fn none =
      (.fullContent (fileSize wf),
       { st with store := increment_total_streams st.store fn }) := by
    simp [stream_audio, hwf]
  refine ⟨?_, ?_, ?_, ?_, ?_⟩
  · rw [hrun]
    show alookup (increment_total_streams st.store fn) fn = _
    unfold increment_total_streams
    rw [alookup_aupdate_self st.store fn _ meta hmeta]
  · intro g hg
    rw [hrun]
    show alookup (increment_total_streams st.store fn) g = _
    unfold increment_total_streams
    exact alookup_aupdate_ne st.store fn g _ hg
  · rw [hrun]
  · rw [hrun]
  · intro r
    obtain ⟨s, e⟩ := r
    simp [stream_audio, hwf]

theorem stream_total_streams_increment_check :
    alookup (stream_audio st0 "a.wav" none).2.store "a.wav" =
      some { meta0 with totalStreams := meta0.totalStreams + 1 } ∧
    (stream_audio st0 "a.wav" (some (some 0, none))).2 = st0 :=
  have h := stream_total_streams_increment st0 "a.wav" meta0 wf0 rfl rfl
  ⟨h.1, h.2.2.2.2 (some 0, none)⟩

/-- C10: when the audio file does not exist, `GET /stream/<filename>`
returns the not-found response and leaves the entire state — all persisted
metadata, `totalStreams` included — unchanged, because the file-existence
check precedes the stream-counter increment. -/
theorem stream_missing_file_no_change (st : SysState) (fn : String)
    (rangeHeader : Option (Option Nat × Option Nat))
    (h : alookup st.files fn = none) :
    stream_audio st fn rangeHeader = (.notFound, st) := by
  simp [stream_audio, h]

theorem stream_missing_file_no_change_check :
    stream_audio st0 "missing.wav" none = (StreamResp.notFound, st0) :=
  stream_missing_file_no_change st0 "missing.wav" none rfl

end EphemeralAudio
